import Mathlib

/-!
Verification of the rag2f core against its specification.

This file gives a shallow embedding, in Lean 4, of the parts of the rag2f
code base that the checked properties talk about:

* the capability-based query validator (`rag2f/core/xfiles/validation.py`);
* the hook registry and pipelined dispatch (`rag2f/core/morpheus/morpheus.py`);
* the synchronous task engine (`rag2f/core/flux_capacitor/flux_capacitor.py`,
  `store.py`, `queue.py`, `task_models.py`);
* the asynchronous agent worker and job store (`rag2f/core/flux_capacitor/agent.py`,
  `jobs.py`).

Python values that the validator inspects dynamically are embedded as the
inductive `PyVal`; machine-level aspects irrelevant to the properties
(logging, timestamps beyond ordering, string formatting of diagnostics)
are modelled by structured data.  Exceptions are embedded as `Except`.
-/

namespace XFiles

/-- Dynamic (Python) values that may appear inside a `where` clause.
`WhereNode` in `types.py` is an arbitrary nested tuple, so the validator
receives untyped data; this inductive covers the shapes it distinguishes. -/
inductive PyVal where
  | vnone
  | str (s : String)
  | int (n : Int)
  | bool (b : Bool)
  | list (xs : List PyVal)
  | tuple (xs : List PyVal)
  deriving Repr

/-- The feature named by a `NotSupported` error (`exceptions.py` carries it as
a string; the operator case is the formatted string `filter operator '<op>'`). -/
inductive Feature where
  | query
  | projection
  | filtering
  | ordering
  | pagination
  | filterOperator (op : String)
  deriving Repr, DecidableEq

/-- Errors raised by the validator: `ValidationError` for structural defects,
`NotSupported` for capability violations (`xfiles/exceptions.py`). -/
inductive VErr where
  | validationError (msg : String) (fieldPath : String)
  | notSupported (feature : Feature) (details : String)
  deriving Repr, DecidableEq

/-- `QueryCapability` from `capabilities.py`. -/
structure QueryCapability where
  supported : Bool := false
  deriving Repr, DecidableEq

/-- `FeatureSupport` from `capabilities.py`. -/
structure FeatureSupport where
  supported : Bool := false
  pushdown : Bool := false
  deriving Repr, DecidableEq

/-- `FilterCapability` from `capabilities.py`. -/
structure FilterCapability where
  supported : Bool := false
  pushdown : Bool := false
  ops : List String := []
  deriving Repr, DecidableEq

/-- `PaginationCapability` from `capabilities.py` (`mode` kept as a string). -/
structure PaginationCapability where
  supported : Bool := false
  pushdown : Bool := false
  mode : String := "offset"
  max_limit : Option Int := Option.none
  deriving Repr, DecidableEq

/-- The fields of `Capabilities` (`capabilities.py`) that the validator
consults; the remaining fields (crud, update, native, vector_search,
graph_traversal, extra) are never read by `validate_queryspec`. -/
structure Capabilities where
  query : QueryCapability := {}
  projection : FeatureSupport := {}
  filter : FilterCapability := {}
  order_by : FeatureSupport := {}
  pagination : PaginationCapability := {}
  deriving Repr, DecidableEq

/-- `QuerySpec` from `types.py`; `select` and `order_by` are typed per the
dataclass annotations (`list[str]`), `where` stays dynamic. -/
structure QuerySpec where
  select : Option (List String) := Option.none
  where_ : Option PyVal := Option.none
  order_by : Option (List String) := Option.none
  limit : Option Int := Option.none
  offset : Int := 0
  deriving Repr

/-- `ARITY_3_COMPARISON` from `validation.py`. -/
def ARITY_3_COMPARISON : List String :=
  ["eq", "ne", "gt", "gte", "lt", "lte", "in", "contains", "startswith",
   "endswith", "regex", "fulltext", "near", "within"]

/-- `ARITY_2_UNARY` from `validation.py`. -/
def ARITY_2_UNARY : List String := ["exists", "not"]

/-- `ARITY_3_LOGICAL` from `validation.py`. -/
def ARITY_3_LOGICAL : List String := ["and", "or"]

/-- `get_expected_arity` from `validation.py`. -/
def get_expected_arity (op : String) : Nat :=
  if op ∈ ARITY_3_COMPARISON ∨ op ∈ ARITY_3_LOGICAL then 3
  else if op ∈ ARITY_2_UNARY then 2
  else 0

/-- Field / allowlist check shared by the comparison and `exists` branches of
`_validate_where_node`. -/
def checkFieldAllowed (allowed_fields : Option (List String)) (fieldName : String)
    (path : String) : Except VErr Unit :=
  match allowed_fields with
  | Option.none => .ok ()
  | some allow =>
      if fieldName ∈ allow then .ok ()
      else .error (.validationError "Field is not in allowed fields" (path ++ "[1]"))

/-- `_validate_where_node` from `validation.py`: recursive validation of the
filter AST.  The order of the checks follows the source: tuple shape, empty,
operator a string, operator supported (only when filtering is declared
supported), arity known, arity matches, then the per-operator branch. -/
def validate_where_node (caps : Capabilities) (allowed_fields : Option (List String)) :
    PyVal → String → Except VErr Unit
  | PyVal.tuple xs, path =>
    (match xs with
     | [] => .error (.validationError "WhereNode cannot be empty" path)
     | x :: rest =>
       match x with
       | PyVal.str op =>
         if caps.filter.supported = true ∧ op ∉ caps.filter.ops then
           .error (.notSupported (.filterOperator op)
             ("Supported operators: " ++ String.intercalate ", " caps.filter.ops))
         else
           let expected := get_expected_arity op
           if expected = 0 then
             .error (.validationError "Unknown operator" path)
           else if rest.length + 1 ≠ expected then
             .error (.validationError "Operator arity mismatch" path)
           else if op ∈ ARITY_3_COMPARISON then
             match rest with
             | [f, v] =>
               (match f with
                | PyVal.str fieldName =>
                  (match checkFieldAllowed allowed_fields fieldName path with
                   | .error e => .error e
                   | .ok _ =>
                     if op = "in" then
                       match v with
                       | PyVal.list _ => .ok ()
                       | _ => .error (.validationError
                           "in operator values must be a list" (path ++ "[2]"))
                     else .ok ())
                | _ => .error (.validationError "Field name must be a string" (path ++ "[1]")))
             | _ => .ok ()
           else if op = "exists" then
             match rest with
             | [f] =>
               (match f with
                | PyVal.str fieldName => checkFieldAllowed allowed_fields fieldName path
                | _ => .error (.validationError "Field name must be a string" (path ++ "[1]")))
             | _ => .ok ()
           else if op = "not" then
             match rest with
             | [cond] => validate_where_node caps allowed_fields cond (path ++ ".not")
             | _ => .ok ()
           else
             match rest with
             | [l, r] =>
               (match validate_where_node caps allowed_fields l (path ++ "." ++ op ++ ".left") with
                | .error e => .error e
                | .ok _ => validate_where_node caps allowed_fields r (path ++ "." ++ op ++ ".right"))
             | _ => .ok ()
       | _ => .error (.validationError "Operator must be a string" (path ++ "[0]")))
  | PyVal.vnone, path => .error (.validationError "WhereNode must be a tuple" path)
  | PyVal.str _, path => .error (.validationError "WhereNode must be a tuple" path)
  | PyVal.int _, path => .error (.validationError "WhereNode must be a tuple" path)
  | PyVal.bool _, path => .error (.validationError "WhereNode must be a tuple" path)
  | PyVal.list _, path => .error (.validationError "WhereNode must be a tuple" path)

/-- The select loop of `validate_queryspec`: each select field must satisfy
the allowlist (the `isinstance(field, str)` check is discharged by typing). -/
def checkSelectFields (allowed_select : Option (List String)) :
    List String → Except VErr Unit
  | [] => .ok ()
  | f :: rest =>
    match allowed_select with
    | Option.none => checkSelectFields allowed_select rest
    | some allow =>
        if f ∈ allow then checkSelectFields allowed_select rest
        else .error (.validationError "Field is not allowed in select" "select")

/-- The projection section of `validate_queryspec`. -/
def checkSelect (query : QuerySpec) (caps : Capabilities)
    (allowed_select : Option (List String)) : Except VErr Unit :=
  match query.select with
  | Option.none => .ok ()
  | some sel =>
      if caps.projection.supported = true then checkSelectFields allowed_select sel
      else .error (.notSupported .projection
        "Repository does not support field projection (select)")

/-- `order_field.lstrip("-")` — strip every leading dash. -/
def lstripDash (s : String) : String :=
  String.mk (s.toList.dropWhile (fun c => c = '-'))

/-- The ordering loop of `validate_queryspec`. -/
def checkOrderFields (allowed_order_by : Option (List String)) :
    List String → Except VErr Unit
  | [] => .ok ()
  | f :: rest =>
    match allowed_order_by with
    | Option.none => checkOrderFields allowed_order_by rest
    | some allow =>
        if lstripDash f ∈ allow then checkOrderFields allowed_order_by rest
        else .error (.validationError "Field is not allowed in order_by" "order_by")

/-- The ordering section of `validate_queryspec`. -/
def checkOrderBy (query : QuerySpec) (caps : Capabilities)
    (allowed_order_by : Option (List String)) : Except VErr Unit :=
  match query.order_by with
  | Option.none => .ok ()
  | some ob =>
      if caps.order_by.supported = true then checkOrderFields allowed_order_by ob
      else .error (.notSupported .ordering "Repository does not support ordering (order_by)")

/-- The filtering section of `validate_queryspec`. -/
def checkWhere (query : QuerySpec) (caps : Capabilities)
    (allowed_fields : Option (List String)) : Except VErr Unit :=
  match query.where_ with
  | Option.none => .ok ()
  | some w =>
      if caps.filter.supported = true then validate_where_node caps allowed_fields w "where"
      else .error (.notSupported .filtering
        "Repository does not support filtering (where clause)")

/-- The limit section of `validate_queryspec`: non-negativity, then the
`max_limit` clamp; returns the `result_limit` the function will carry into
the final comparison. -/
def checkLimit (query : QuerySpec) (caps : Capabilities) : Except VErr (Option Int) :=
  match query.limit with
  | Option.none => .ok query.limit
  | some l =>
      if l < 0 then .error (.validationError "Limit must be non-negative" "limit")
      else
        match caps.pagination.max_limit with
        | some ml => .ok (some (min l ml))
        | Option.none => .ok (some l)

/-- `validate_queryspec` from `validation.py`.  Sections run in source order:
query capability, projection, filtering, ordering, pagination support,
limit, offset, and finally either the input spec or a copy with the clamped
limit is returned. -/
def validate_queryspec (query : QuerySpec) (caps : Capabilities)
    (allowed_fields : Option (List String) := Option.none)
    (allowed_select : Option (List String) := Option.none)
    (allowed_order_by : Option (List String) := Option.none) :
    Except VErr QuerySpec :=
  if query.where_.isSome = true ∧ caps.query.supported = false then
    .error (.notSupported .query "Repository does not support queries (find operations)")
  else
    match checkSelect query caps allowed_select with
    | .error e => .error e
    | .ok _ =>
    match checkWhere query caps allowed_fields with
    | .error e => .error e
    | .ok _ =>
    match checkOrderBy query caps allowed_order_by with
    | .error e => .error e
    | .ok _ =>
    if (query.limit.isSome = true ∨ query.offset ≠ 0) ∧ caps.pagination.supported = false then
      .error (.notSupported .pagination "Repository does not support pagination")
    else
      match checkLimit query caps with
      | .error e => .error e
      | .ok result_limit =>
          if query.offset < 0 then
            .error (.validationError "Offset must be non-negative" "offset")
          else if result_limit ≠ query.limit then
            .ok { query with limit := result_limit }
          else
            .ok query


/-- Capabilities of test scenario 4 of the spec: pagination supported with
`max_limit = 1000`. -/
def capsMax1000 : Capabilities :=
  { query := { supported := true },
    pagination := { supported := true, max_limit := some 1000 } }

/-- Capabilities of test scenario 3 of the spec: filtering supported with
operator set `{eq, and}`. -/
def capsFilterEqAnd : Capabilities :=
  { query := { supported := true },
    filter := { supported := true, ops := ["eq", "and"] } }

/-- C2: a successful `validate_queryspec` either returns the input spec
unchanged or a spec differing only in `limit`, clamped to
`min (limit, max_limit)`; with `max_limit = 1000`, limit 5000 comes back as
1000 and limit 500 comes back as the unchanged input. -/
theorem C2_validate_clamps_limit_only
    (q : QuerySpec) (caps : Capabilities)
    (af asl aob : Option (List String)) (q' : QuerySpec)
    (h : validate_queryspec q caps af asl aob = .ok q') :
    (q' = q ∨
      (q'.select = q.select ∧ q'.where_ = q.where_ ∧ q'.order_by = q.order_by ∧
       q'.offset = q.offset ∧
       ∃ l ml, q.limit = some l ∧ caps.pagination.max_limit = some ml ∧
         q'.limit = some (min l ml))) ∧
    validate_queryspec { limit := some 5000 } capsMax1000 =
      .ok ({ limit := some 1000 } : QuerySpec) ∧
    validate_queryspec { limit := some 500 } capsMax1000 =
      .ok ({ limit := some 500 } : QuerySpec) := by
  refine ⟨?_, rfl, rfl⟩
  unfold validate_queryspec at h
  split at h
  · exact Except.noConfusion h
  · split at h
    · exact Except.noConfusion h
    · split at h
      · exact Except.noConfusion h
      · split at h
        · exact Except.noConfusion h
        · split at h
          · exact Except.noConfusion h
          · split at h
            · exact Except.noConfusion h
            · rename_i result_limit hlim
              split at h
              · exact Except.noConfusion h
              · split at h
                · rename_i hne
                  injection h with h'
                  subst h'
                  right
                  unfold checkLimit at hlim
                  split at hlim
                  · injection hlim with h2; exact absurd h2.symm hne
                  · rename_i l hql
                    split at hlim
                    · exact Except.noConfusion hlim
                    · split at hlim
                      · rename_i ml hml
                        injection hlim with h2
                        exact ⟨rfl, rfl, rfl, rfl, l, ml, hql, hml, h2.symm⟩
                      · injection hlim with h2
                        rw [← h2, hql] at hne
                        exact absurd rfl hne
                · injection h with h'
                  subst h'
                  left; rfl

/-- Witness for C2: the clamping theorem applied at the concrete query with
limit 5000 against `max_limit = 1000` capabilities. -/
theorem C2_validate_clamps_limit_only_witness :
    validate_queryspec { limit := some 5000 } capsMax1000 =
      .ok ({ limit := some 1000 } : QuerySpec) :=
  (C2_validate_clamps_limit_only { limit := some 5000 } capsMax1000
    Option.none Option.none Option.none { limit := some 1000 } rfl).2.1

/-- C6: with filtering declared supported, a where clause whose operator is
outside the capability operator set fails with `NotSupported` naming that
operator; with filtering declared unsupported, any where clause fails with
`NotSupported` on the feature `filtering`; concretely, ops `{eq, and}` and
`where = ("gt", "age", 18)` fail mentioning `gt`. -/
theorem C6_where_unsupported_errors :
    (∀ (caps : Capabilities) (q : QuerySpec) (op : String) (f v : PyVal)
        (af asl aob : Option (List String)),
        caps.query.supported = true →
        caps.filter.supported = true →
        op ∉ caps.filter.ops →
        q.where_ = some (.tuple [.str op, f, v]) →
        checkSelect q caps asl = .ok () →
        validate_queryspec q caps af asl aob =
          .error (.notSupported (.filterOperator op)
            ("Supported operators: " ++ String.intercalate ", " caps.filter.ops))) ∧
    (∀ (caps : Capabilities) (q : QuerySpec) (w : PyVal)
        (af asl aob : Option (List String)),
        caps.query.supported = true →
        caps.filter.supported = false →
        q.where_ = some w →
        checkSelect q caps asl = .ok () →
        validate_queryspec q caps af asl aob =
          .error (.notSupported .filtering
            "Repository does not support filtering (where clause)")) ∧
    validate_queryspec { where_ := some (.tuple [.str "gt", .str "age", .int 18]) }
        capsFilterEqAnd =
      .error (.notSupported (.filterOperator "gt") "Supported operators: eq, and") := by
  refine ⟨?_, ?_, rfl⟩
  · intro caps q op f v af asl aob hq hf hop hw hsel
    have hcw : checkWhere q caps af = .error (.notSupported (.filterOperator op)
        ("Supported operators: " ++ String.intercalate ", " caps.filter.ops)) := by
      unfold checkWhere
      rw [hw]
      simp [validate_where_node, hf, hop]
    unfold validate_queryspec
    rw [if_neg (by simp [hq]), hsel, hcw]
  · intro caps q w af asl aob hq hf hw hsel
    have hcw : checkWhere q caps af = .error (.notSupported .filtering
        "Repository does not support filtering (where clause)") := by
      unfold checkWhere
      rw [hw]
      simp [hf]
    unfold validate_queryspec
    rw [if_neg (by simp [hq]), hsel, hcw]

/-- Witness for C6: the theorem applied at the concrete `("gt", "age", 18)`
clause against `{eq, and}` capabilities. -/
theorem C6_where_unsupported_errors_witness :
    validate_queryspec { where_ := some (.tuple [.str "gt", .str "age", .int 18]) }
        capsFilterEqAnd =
      .error (.notSupported (.filterOperator "gt") "Supported operators: eq, and") :=
  C6_where_unsupported_errors.1 capsFilterEqAnd
    { where_ := some (.tuple [.str "gt", .str "age", .int 18]) }
    "gt" (.str "age") (.int 18) Option.none Option.none Option.none
    rfl rfl (by decide) rfl rfl

end XFiles

namespace Morpheus

/-!
Embedding of the hook registry and dispatcher (`morpheus/morpheus.py`).

Pipeline execution manipulates mutable Python objects, so it is modelled over
an explicit flat heap: an address (a list index) holds an object's current
contents.  `deepcopy` allocates fresh cells carrying the same contents; an
in-place mutation overwrites a cell.  A hook call receives the contents of
the (deep-copied) piped object and trailing arguments, may overwrite the
received cells, and either raises or returns `Option` of the next piped
value (`none` models Python `None`, i.e. "keep the previous value").
-/

/-- The observable behavior of one `hook.function(...)` call: contents of the
received piped cell after the call, contents of the received trailing cells
after the call, and the raise/return outcome. -/
structure HookCall (γ : Type) where
  argAfter : γ
  restAfter : List γ
  outcome : Except Unit (Option γ)

/-- A registered hook handle (`PillHook` from `decorators/hook.py`). -/
structure PillHook (γ : Type) where
  name : String
  priority : Int
  plugin_id : String
  call : γ → List γ → HookCall γ

/-- A plugin as the dispatcher caches it: its id and collected hook handles
(`plugin.py`). -/
structure Plugin (γ : Type) where
  id : String
  hooks : List (PillHook γ)

/-- All handles named `name`, in plugin-registration order then per-plugin
collection order — the order in which `refresh_caches` appends them before
sorting. -/
def collectHooks (plugins : List (Plugin γ)) (name : String) : List (PillHook γ) :=
  ((plugins.map Plugin.hooks).flatten).filter (fun h => h.name = name)

/-- Stable insertion into a priority-descending list: the handle goes before
the first strictly smaller priority, hence after every earlier handle of
greater-or-equal priority. -/
def insertHook (h : PillHook γ) : List (PillHook γ) → List (PillHook γ)
  | [] => [h]
  | x :: xs => if x.priority ≤ h.priority then h :: x :: xs else x :: insertHook h xs

/-- The unique stable descending sort that
`self.hooks[hook_name].sort(key=lambda x: x.priority, reverse=True)`
performs in `refresh_caches`. -/
def sortHooksDesc (l : List (PillHook γ)) : List (PillHook γ) := l.foldr insertHook []

/-- `refresh_caches` from `morpheus.py`: rebuild the name-indexed hook cache
from the loaded plugins and sort each bucket by priority descending (Python's
sort is stable, preserving registration order within equal priority).  Names
with no handles are absent from the cache. -/
def refresh_caches (plugins : List (Plugin γ)) : String → Option (List (PillHook γ)) :=
  fun name =>
    let l := collectHooks plugins name
    if l.isEmpty then Option.none else some (sortHooksDesc l)

/-- The object heap: address `i` holds the current contents of object `i`. -/
abbrev Heap (γ : Type) := List γ

/-- The piped value after one handle of a piped pipeline: a raise is caught
and a `None` return keeps the previous value; otherwise the returned value
becomes the new piped value. -/
def pipeStepValue (rest : List γ) (phone : γ) (h : PillHook γ) : γ :=
  match (h.call phone rest).outcome with
  | .error _ => phone
  | .ok Option.none => phone
  | .ok (some v) => v

/-- The piped-pipeline loop of `execute_hook`: for each handle, read the
caller's trailing objects, allocate deep copies of the piped value and of
them, run the handle (its in-place mutations land in the copy cells), and
thread the piped value.  Returns the final piped value, the final heap and
the invocation trace. -/
def pipeRun (restAddrs : List Nat) (dflt : γ) :
    List (PillHook γ) → γ → Heap γ → γ × Heap γ × List (PillHook γ)
  | [], phone, heap => (phone, heap, [])
  | h :: hs, phone, heap =>
      let rest := restAddrs.map (fun r => heap.getD r dflt)
      let c := h.call phone rest
      let heapAfter := heap ++ c.argAfter :: c.restAfter
      let phoneNext :=
        match c.outcome with
        | .error _ => phone
        | .ok Option.none => phone
        | .ok (some v) => v
      let out := pipeRun restAddrs dflt hs phoneNext heapAfter
      (out.1, out.2.1, h :: out.2.2)

/-- Result of `execute_hook`: the returned value, the heap after the
pipeline, and the handles invoked in order. -/
structure ExecOut (γ : Type) where
  result : Option γ
  heap : Heap γ
  trace : List (PillHook γ)

/-- `execute_hook` from `morpheus.py`.  An unregistered name returns the
first argument (or nothing when no argument was given) without invoking
anything; an empty argument list runs the no-piping loop; otherwise the
first argument is piped through the handles with per-handle deep copies. -/
def execute_hook (hooks : String → Option (List (PillHook γ))) (dflt : γ)
    (hook_name : String) (argAddrs : List Nat) (heap : Heap γ) : ExecOut γ :=
  match hooks hook_name with
  | Option.none =>
      match argAddrs with
      | [] => ⟨Option.none, heap, []⟩
      | a :: _ => ⟨some (heap.getD a dflt), heap, []⟩
  | some hs =>
      match argAddrs with
      | [] => ⟨Option.none, heap, hs⟩
      | a :: restAddrs =>
          let out := pipeRun restAddrs dflt hs (heap.getD a dflt) heap
          ⟨some out.1, out.2.1, out.2.2⟩

theorem insertHook_perm (h : PillHook γ) (l : List (PillHook γ)) :
    List.Perm (insertHook h l) (h :: l) := by
  induction l with
  | nil => exact List.Perm.refl _
  | cons x xs ih =>
      simp only [insertHook]
      split
      · exact List.Perm.refl _
      · exact (ih.cons x).trans (List.Perm.swap h x xs)

theorem sortHooksDesc_perm (l : List (PillHook γ)) :
    List.Perm (sortHooksDesc l) l := by
  induction l with
  | nil => exact List.Perm.refl _
  | cons x xs ih =>
      exact (insertHook_perm x (sortHooksDesc xs)).trans (ih.cons x)

theorem insertHook_sorted (h : PillHook γ) (l : List (PillHook γ))
    (hl : l.Pairwise (fun a b => b.priority ≤ a.priority)) :
    (insertHook h l).Pairwise (fun a b => b.priority ≤ a.priority) := by
  induction l with
  | nil => simp [insertHook]
  | cons x xs ih =>
      rcases List.pairwise_cons.mp hl with ⟨hx, hxs⟩
      simp only [insertHook]
      split
      · rename_i hle
        refine List.pairwise_cons.mpr ⟨?_, hl⟩
        intro b hb
        rcases List.mem_cons.mp hb with hbx | hbxs
        · exact hbx ▸ hle
        · exact le_trans (hx b hbxs) hle
      · rename_i hgt
        refine List.pairwise_cons.mpr ⟨?_, ih hxs⟩
        intro b hb
        rcases List.mem_cons.mp ((insertHook_perm h xs).mem_iff.mp hb) with hbh | hbxs
        · exact hbh ▸ le_of_not_le hgt
        · exact hx b hbxs

theorem sortHooksDesc_sorted (l : List (PillHook γ)) :
    (sortHooksDesc l).Pairwise (fun a b => b.priority ≤ a.priority) := by
  induction l with
  | nil => simp [sortHooksDesc]
  | cons x xs ih => exact insertHook_sorted x (sortHooksDesc xs) ih

theorem insertHook_filter_priority (h : PillHook γ) (l : List (PillHook γ)) (p : Int) :
    (insertHook h l).filter (fun x => x.priority = p) =
      if h.priority = p then h :: l.filter (fun x => x.priority = p)
      else l.filter (fun x => x.priority = p) := by
  induction l with
  | nil => by_cases hp : h.priority = p <;> simp [insertHook, List.filter_cons, hp]
  | cons x xs ih =>
      simp only [insertHook]
      split
      · rename_i hle
        by_cases hp : h.priority = p <;> simp [List.filter_cons, hp]
      · rename_i hgt
        by_cases hp : h.priority = p
        · have hxp : ¬ x.priority = p := by
            intro hxe
            exact hgt (le_of_eq (hxe.trans hp.symm))
          simp [List.filter_cons, hxp, ih, hp]
        · simp only [List.filter_cons, ih, if_neg hp]

theorem sortHooksDesc_filter_priority (l : List (PillHook γ)) (p : Int) :
    (sortHooksDesc l).filter (fun x => x.priority = p) =
      l.filter (fun x => x.priority = p) := by
  induction l with
  | nil => rfl
  | cons x xs ih =>
      show (insertHook x (sortHooksDesc xs)).filter (fun y => y.priority = p) = _
      rw [insertHook_filter_priority]
      by_cases hp : x.priority = p <;> simp [List.filter_cons, hp, ih]

theorem pipeRun_trace (restAddrs : List Nat) (dflt : γ) (hs : List (PillHook γ))
    (phone : γ) (heap : Heap γ) :
    (pipeRun restAddrs dflt hs phone heap).2.2 = hs := by
  induction hs generalizing phone heap with
  | nil => rfl
  | cons h t ih => simp only [pipeRun]; rw [ih]

theorem pipeRun_heap_getD (restAddrs : List Nat) (dflt : γ) (hs : List (PillHook γ))
    (phone : γ) (heap : Heap γ) (r : Nat) (hr : r < heap.length) :
    ((pipeRun restAddrs dflt hs phone heap).2.1).getD r dflt = heap.getD r dflt := by
  induction hs generalizing phone heap with
  | nil => rfl
  | cons h t ih =>
      simp only [pipeRun]
      rw [ih _ _ (by simpa using Nat.lt_of_lt_of_le hr (by simp))]
      exact List.getD_append _ _ _ _ hr

theorem pipeRun_result (restAddrs : List Nat) (dflt : γ) (hs : List (PillHook γ))
    (phone : γ) (heap : Heap γ)
    (hv : ∀ r ∈ restAddrs, r < heap.length) :
    (pipeRun restAddrs dflt hs phone heap).1 =
      hs.foldl (pipeStepValue (restAddrs.map (fun r => heap.getD r dflt))) phone := by
  induction hs generalizing phone heap with
  | nil => rfl
  | cons h t ih =>
      simp only [pipeRun, List.foldl]
      rw [ih _ _ (fun r hr => by simpa using Nat.lt_of_lt_of_le (hv r hr) (by simp))]
      have hmap : ∀ (glue : List γ), restAddrs.map (fun r => (heap ++ glue).getD r dflt) =
          restAddrs.map (fun r => heap.getD r dflt) := by
        intro glue
        exact List.map_congr_left (fun r hr => List.getD_append _ _ _ _ (hv r hr))
      rw [hmap]
      rfl

theorem foldl_pipeStep_outcome_congr (rest : List γ) (hs₁ hs₂ : List (PillHook γ))
    (phone : γ)
    (hrel : List.Forall₂
      (fun g k => ∀ (p : γ) (r : List γ), (g.call p r).outcome = (k.call p r).outcome)
      hs₁ hs₂) :
    hs₁.foldl (pipeStepValue rest) phone = hs₂.foldl (pipeStepValue rest) phone := by
  induction hrel generalizing phone with
  | nil => rfl
  | @cons g k l₁ l₂ hgk htail ih =>
      simp only [List.foldl]
      have hstep : pipeStepValue rest phone g = pipeStepValue rest phone k := by
        unfold pipeStepValue
        rw [hgk phone rest]
      rw [hstep]
      exact ih _

/-- C1: for a hook name with registered handles, `execute_hook` invokes every
registered handle exactly once — the invocation trace is exactly the registry
bucket, a permutation of the collected handles — in descending priority with
registration order preserved within equal priority; a handle returning null
leaves the piped value unchanged; a raising handle is caught, leaves the
piped value unchanged and does not prevent the next handle from running; and
the final piped value is returned to the caller. -/
theorem C1_execute_hook_pipeline (plugins : List (Plugin γ)) (dflt : γ)
    (name : String) (hs : List (PillHook γ)) (heap : Heap γ)
    (a : Nat) (restAddrs : List Nat)
    (hreg : refresh_caches plugins name = some hs)
    (hv : ∀ r ∈ restAddrs, r < heap.length) :
    (execute_hook (refresh_caches plugins) dflt name (a :: restAddrs) heap).trace = hs ∧
    List.Perm hs (collectHooks plugins name) ∧
    hs.Pairwise (fun x y => y.priority ≤ x.priority) ∧
    (∀ p : Int, hs.filter (fun h => h.priority = p) =
      (collectHooks plugins name).filter (fun h => h.priority = p)) ∧
    (execute_hook (refresh_caches plugins) dflt name (a :: restAddrs) heap).result =
      some (hs.foldl
        (pipeStepValue (restAddrs.map (fun r => heap.getD r dflt)))
        (heap.getD a dflt)) ∧
    (∀ (h : PillHook γ) (phone : γ) (rest : List γ),
      (h.call phone rest).outcome = .ok Option.none →
        pipeStepValue rest phone h = phone) ∧
    (∀ (h : PillHook γ) (phone : γ) (rest : List γ) (e : Unit),
      (h.call phone rest).outcome = .error e →
        pipeStepValue rest phone h = phone) := by
  have hsort : hs = sortHooksDesc (collectHooks plugins name) := by
    simp only [refresh_caches] at hreg
    split at hreg
    · exact Option.noConfusion hreg
    · exact (Option.some.injEq _ _ ▸ hreg).symm
  refine ⟨?_, ?_, ?_, ?_, ?_, ?_, ?_⟩
  · simp only [execute_hook, hreg]
    exact pipeRun_trace _ _ _ _ _
  · exact hsort ▸ sortHooksDesc_perm _
  · exact hsort ▸ sortHooksDesc_sorted _
  · intro p
    exact hsort ▸ sortHooksDesc_filter_priority _ p
  · simp only [execute_hook, hreg]
    rw [pipeRun_result _ _ _ _ _ hv]
  · intro h phone rest hnull
    unfold pipeStepValue
    rw [hnull]
  · intro h phone rest e hraise
    unfold pipeStepValue
    rw [hraise]

/-- Witness for C1: a concrete one-plugin registry with a single `greet`
handle, executed on a one-cell heap. -/
theorem C1_execute_hook_pipeline_witness :
    (execute_hook
        (refresh_caches (γ := Int)
          [⟨"mock", [⟨"greet", 1, "mock", fun p _ => ⟨p, [], .ok (some (p + 1))⟩⟩]⟩])
        0 "greet" [0] [5]).trace =
      [⟨"greet", 1, "mock", fun p _ => ⟨p, [], .ok (some (p + 1))⟩⟩] :=
  (C1_execute_hook_pipeline
    [⟨"mock", [⟨"greet", 1, "mock", fun p _ => ⟨p, [], .ok (some (p + 1))⟩⟩]⟩]
    0 "greet"
    [⟨"greet", 1, "mock", fun p _ => ⟨p, [], .ok (some (p + 1))⟩⟩]
    [5] 0 [] rfl (by simp)).1

/-- C7: deep copies isolate handles — two pipelines whose handles agree on
their raise/return outcomes but mutate their received objects differently
in place produce the same final piped value (mutations of one handle are
never observable by a later handle except through the returned value), and
the caller's argument objects keep their original contents. -/
theorem C7_deepcopy_isolation (dflt : γ) (name : String) (heap : Heap γ)
    (a : Nat) (restAddrs : List Nat)
    (m₁ m₂ : String → Option (List (PillHook γ))) (hs₁ hs₂ : List (PillHook γ))
    (hm₁ : m₁ name = some hs₁) (hm₂ : m₂ name = some hs₂)
    (hrel : List.Forall₂
      (fun g k => ∀ (p : γ) (r : List γ), (g.call p r).outcome = (k.call p r).outcome)
      hs₁ hs₂)
    (hv : ∀ r ∈ restAddrs, r < heap.length) :
    (execute_hook m₁ dflt name (a :: restAddrs) heap).result =
      (execute_hook m₂ dflt name (a :: restAddrs) heap).result ∧
    (∀ r, r < heap.length →
      (execute_hook m₁ dflt name (a :: restAddrs) heap).heap.getD r dflt =
        heap.getD r dflt) := by
  constructor
  · simp only [execute_hook, hm₁, hm₂]
    rw [pipeRun_result _ _ _ _ _ hv, pipeRun_result _ _ _ _ _ hv]
    exact congrArg some (foldl_pipeStep_outcome_congr _ _ _ _ hrel)
  · intro r hr
    simp only [execute_hook, hm₁]
    exact pipeRun_heap_getD _ _ _ _ _ _ hr

/-- Witness for C7: two single-handle pipelines over a two-cell heap; the
first handle scribbles over its received copies, the second does not. -/
theorem C7_deepcopy_isolation_witness :
    (execute_hook (γ := Int)
        (fun _ => some [⟨"x", 1, "p", fun p r => ⟨p + 100, r.map (fun y => y + 7), .ok (some p)⟩⟩])
        0 "x" [0, 1] [5, 6]).result =
      (execute_hook (γ := Int)
        (fun _ => some [⟨"x", 1, "p", fun p r => ⟨p, r, .ok (some p)⟩⟩])
        0 "x" [0, 1] [5, 6]).result :=
  (C7_deepcopy_isolation 0 "x" [5, 6] 0 [1]
    (fun _ => some [⟨"x", 1, "p", fun p r => ⟨p + 100, r.map (fun y => y + 7), .ok (some p)⟩⟩])
    (fun _ => some [⟨"x", 1, "p", fun p r => ⟨p, r, .ok (some p)⟩⟩])
    [⟨"x", 1, "p", fun p r => ⟨p + 100, r.map (fun y => y + 7), .ok (some p)⟩⟩]
    [⟨"x", 1, "p", fun p r => ⟨p, r, .ok (some p)⟩⟩]
    rfl rfl
    (List.Forall₂.cons (fun _ _ => rfl) List.Forall₂.nil)
    (by decide)).1

end Morpheus

namespace Flux

/-!
Embedding of the synchronous task engine (`flux_capacitor/flux_capacitor.py`
with the in-memory store of `store.py` and queue of `queue.py`).

Task ids (uuid strings in the source) are modelled as numbers drawn from a
fresh-id counter; timestamps as an abstract clock value.  The store is the
task-record list in creation order — together with unique ids this carries
exactly the information of `InMemoryTaskStore`'s `_tasks` dict and
`_children` index.  The hook invocation of step 5 of `run_once` is modelled
by its observable behavior: it either raises or succeeds leaving a list of
staged child requests on the context.  `queue.push` is kept abstract
(`run_once` is written against `BaseTaskQueue`, whose implementations may
raise); the in-memory instance appends and never fails.
-/

/-- Python truthiness of `a or b` for an optional string: `None` and `""`
are falsy. -/
def pyStrOr (a : Option String) (b : String) : String :=
  match a with
  | Option.none => b
  | some s => if s = "" then b else s

/-- A payload mapping (a Python dict with the payload-reference shape). -/
structure PayloadDict where
  repository : Option String := Option.none
  repo : Option String := Option.none
  id : Option String := Option.none
  meta : List (String × String) := []
  deriving Repr, DecidableEq

/-- `PayloadRef` from `task_models.py` (`meta` as a string map). -/
structure PayloadRef where
  repository : String
  id : String
  meta : List (String × String) := []
  deriving Repr, DecidableEq

/-- `PayloadRef.from_mapping`: an absent or empty mapping gives `None`;
`repository` falls back from `repository` to `repo` to `""`. -/
def PayloadRef.from_mapping : Option PayloadDict → Option PayloadRef
  | Option.none => Option.none
  | some d =>
      if d = {} then Option.none
      else some
        { repository := pyStrOr d.repository (pyStrOr d.repo ""),
          id := d.id.getD "",
          meta := d.meta }

/-- `Task` from `task_models.py`. -/
structure Task where
  id : Nat
  plugin_id : String
  hook : String
  payload_ref : Option PayloadRef := Option.none
  parent_id : Option Nat := Option.none
  created_at : Nat := 0
  finished_at : Option Nat := Option.none
  error : Option String := Option.none
  deriving Repr, DecidableEq

/-- `TaskChildRequest` from `task_models.py`. -/
structure TaskChildRequest where
  hook : String
  plugin_id : Option String := Option.none
  payload_ref : Option PayloadDict := Option.none
  deriving Repr, DecidableEq

/-- The in-memory task store (`store.py`): the records in creation order. -/
abbrev TaskStore := List Task

/-- `InMemoryTaskStore.create_task`. -/
def create_task (store : TaskStore) (t : Task) : TaskStore := store ++ [t]

/-- `InMemoryTaskStore.get_task`. -/
def get_task (store : TaskStore) (tid : Nat) : Option Task :=
  store.find? (fun t => t.id = tid)

/-- `InMemoryTaskStore.list_children`: children in creation order. -/
def list_children (store : TaskStore) (pid : Nat) : List Task :=
  store.filter (fun t => t.parent_id = some pid)

/-- `InMemoryTaskStore.mark_done`: set `finished_at`, clear `error`. -/
def mark_done (store : TaskStore) (tid : Nat) (now : Nat) : TaskStore :=
  store.map (fun t =>
    if t.id = tid then { t with finished_at := some now, error := Option.none } else t)

/-- `InMemoryTaskStore.mark_error`: set `finished_at` and the message. -/
def mark_error (store : TaskStore) (tid : Nat) (msg : String) (now : Nat) : TaskStore :=
  store.map (fun t =>
    if t.id = tid then { t with finished_at := some now, error := some msg } else t)

/-- Engine-visible state: the store, the FIFO queue of task ids (head is
popped first), the fresh-id supply and the clock. -/
structure EngineState where
  store : TaskStore := []
  queue : List Nat := []
  nextId : Nat := 0
  now : Nat := 0
  deriving Repr, DecidableEq

/-- The observable behavior of the hook invocation of `run_once` step 5:
it either raises (with a message) or returns, leaving the child requests it
staged on the context (`emit_children` may append `None` entries, skipped by
`_collect_children`). -/
def HookBehavior := Task → Except String (List (Option TaskChildRequest))

/-- Modelled from the spec: `Morpheus.resolve_hook`, called by
`FluxCapacitor.run_once` and `AgentWorker._handle_message`, is not defined in
the sources under `src/` (only its callers are); per the spec, step 3 of
`run_once` is "Resolve the handle for `(plugin_id, hook)`. If unresolved,
mark error and return progressed", so resolution is a lookup that yields the
handle's behavior or nothing. -/
def ResolveFn := String → String → Option HookBehavior

/-- `BaseTaskQueue.push` as `run_once` sees it: it transforms the queue or
raises. -/
def PushFn := List Nat → Nat → Except String (List Nat)

/-- `InMemoryTaskQueue.push`: append; never raises. -/
def in_memory_push : PushFn := fun q tid => .ok (q ++ [tid])

/-- `FluxCapacitor._collect_children`: drop `None` entries and default a
missing `plugin_id` to the current task's. -/
def collect_children (task : Task) (staged : List (Option TaskChildRequest)) :
    List TaskChildRequest :=
  staged.filterMap (fun c =>
    match c with
    | Option.none => Option.none
    | some child =>
        some { child with plugin_id :=
          match child.plugin_id with
          | Option.none => some task.plugin_id
          | some p => some p })

/-- The child task built in the loop of `run_once` step 6: fresh id, the
request's plugin id (`child.plugin_id or task.plugin_id`), the request's
hook, normalized payload, `parent_id` set to the current task. -/
def mkChildTask (cid now : Nat) (parent : Task) (c : TaskChildRequest) : Task :=
  { id := cid,
    plugin_id := pyStrOr c.plugin_id parent.plugin_id,
    hook := c.hook,
    payload_ref := PayloadRef.from_mapping c.payload_ref,
    parent_id := some parent.id,
    created_at := now }

/-- The child tasks of one drain, with consecutive fresh ids. -/
def mkChildTasks (startId now : Nat) (parent : Task) : List TaskChildRequest → List Task
  | [] => []
  | c :: rest => mkChildTask startId now parent c :: mkChildTasks (startId + 1) now parent rest

/-- Store / queue operations as they happen during `run_once`, in program
order. -/
inductive Ev where
  | pop (tid : Option Nat)
  | create (tid : Nat)
  | push (tid : Nat)
  | done (tid : Nat)
  | err (tid : Nat) (msg : String)
  deriving Repr, DecidableEq

/-- Outcome of the child loop: resulting state, event trace, and the raised
message when a push failed (the loop stops there, mid-drain). -/
structure SpawnOut where
  state : EngineState
  trace : List Ev
  failed : Option String
  deriving Repr, DecidableEq

/-- The loop of `run_once` step 6: per child, persist the record and then
push the fresh id; a raise from the queue aborts the loop, leaving the
records created so far in the store. -/
def spawn_children (push : PushFn) (parent : Task) :
    EngineState → List TaskChildRequest → SpawnOut
  | s, [] => ⟨s, [], Option.none⟩
  | s, c :: rest =>
      let cid := s.nextId
      let child := mkChildTask cid s.now parent c
      let store' := create_task s.store child
      match push s.queue cid with
      | .error msg => ⟨{ s with store := store', nextId := cid + 1 }, [.create cid], some msg⟩
      | .ok q' =>
          let out := spawn_children push parent
            { s with store := store', queue := q', nextId := cid + 1 } rest
          ⟨out.state, .create cid :: .push cid :: out.trace, out.failed⟩

/-- Result of `run_once`: the progress flag it returns, the new state, the
event trace. -/
structure RunOut where
  progressed : Bool
  state : EngineState
  trace : List Ev
  deriving Repr, DecidableEq

/-- `FluxCapacitor.run_once`: pop an id (idle when none); drop it when the
record is missing; mark error when the hook is unresolved; otherwise invoke
the hook and drain the staged children — any raise from the invocation or
the drain marks the task errored with the message; on success the task is
marked done.  All paths after a successful pop report progress. -/
def run_once (resolve : ResolveFn) (push : PushFn) (s : EngineState) : RunOut :=
  match s.queue with
  | [] => ⟨false, s, [.pop Option.none]⟩
  | tid :: q' =>
    let s1 := { s with queue := q' }
    match get_task s1.store tid with
    | Option.none => ⟨true, s1, [.pop (some tid)]⟩
    | some task =>
      match resolve task.plugin_id task.hook with
      | Option.none =>
          ⟨true, { s1 with store := mark_error s1.store tid "Hook not found" s1.now },
            [.pop (some tid), .err tid "Hook not found"]⟩
      | some behavior =>
        match behavior task with
        | .error msg =>
            ⟨true, { s1 with store := mark_error s1.store tid msg s1.now },
              [.pop (some tid), .err tid msg]⟩
        | .ok staged =>
          let children := collect_children task staged
          let sp := spawn_children push task s1 children
          match sp.failed with
          | some msg =>
              ⟨true, { sp.state with store := mark_error sp.state.store tid msg sp.state.now },
                .pop (some tid) :: sp.trace ++ [.err tid msg]⟩
          | Option.none =>
              ⟨true, { sp.state with store := mark_done sp.state.store tid sp.state.now },
                .pop (some tid) :: sp.trace ++ [.done tid]⟩

/-- The recursion of `is_tree_done`: a task is fully done when its own
`finished_at` is set with no error and all its children are recursively so;
`fuel` bounds the recursion depth (any value exceeding the store size is
enough on a well-formed store). -/
def walkFuel : Nat → TaskStore → Task → Bool
  | 0, _, _ => false
  | fuel + 1, store, t =>
      t.finished_at.isSome && t.error.isNone &&
        (list_children store t.id).all (walkFuel fuel store)

/-- `FluxCapacitor.is_tree_done`: false for a missing root, otherwise the
recursive walk. -/
def is_tree_done (store : TaskStore) (root_task_id : Nat) : Bool :=
  match get_task store root_task_id with
  | Option.none => false
  | some t => walkFuel (store.length + 1) store t

theorem get_task_mark_error (store : TaskStore) (tid : Nat) (msg : String) (now : Nat) :
    get_task (mark_error store tid msg now) tid =
      (get_task store tid).map
        (fun t => { t with finished_at := some now, error := some msg }) := by
  unfold get_task mark_error
  rw [List.find?_map]
  have hp : ((fun t : Task => decide (t.id = tid)) ∘
      (fun t : Task =>
        if t.id = tid then { t with finished_at := some now, error := some msg } else t)) =
      (fun t : Task => decide (t.id = tid)) := by
    funext t
    by_cases h : t.id = tid <;> simp [h]
  rw [hp]
  cases hfind : store.find? (fun t => decide (t.id = tid)) with
  | none => rfl
  | some t₀ =>
      have hid := List.find?_some hfind
      simp only [decide_eq_true_eq] at hid
      simp [if_pos hid]

theorem get_task_mark_done (store : TaskStore) (tid : Nat) (now : Nat) :
    get_task (mark_done store tid now) tid =
      (get_task store tid).map
        (fun t => { t with finished_at := some now, error := Option.none }) := by
  unfold get_task mark_done
  rw [List.find?_map]
  have hp : ((fun t : Task => decide (t.id = tid)) ∘
      (fun t : Task =>
        if t.id = tid then { t with finished_at := some now, error := Option.none } else t)) =
      (fun t : Task => decide (t.id = tid)) := by
    funext t
    by_cases h : t.id = tid <;> simp [h]
  rw [hp]
  cases hfind : store.find? (fun t => decide (t.id = tid)) with
  | none => rfl
  | some t₀ =>
      have hid := List.find?_some hfind
      simp only [decide_eq_true_eq] at hid
      simp [if_pos hid]

theorem mem_mark_error_of_ne (store : TaskStore) (tid : Nat) (msg : String) (now : Nat)
    (u : Task) (hu : u ∈ store) (hne : u.id ≠ tid) :
    u ∈ mark_error store tid msg now := by
  unfold mark_error
  have hmem := List.mem_map_of_mem
    (fun t : Task =>
      if t.id = tid then { t with finished_at := some now, error := some msg } else t) hu
  simpa [if_neg hne] using hmem

theorem mem_of_mem_mark_error (store : TaskStore) (tid : Nat) (msg : String) (now : Nat)
    (u : Task) (hu : u ∈ mark_error store tid msg now) (hne : u.id ≠ tid) :
    u ∈ store := by
  unfold mark_error at hu
  rcases List.mem_map.mp hu with ⟨v, hv, hvu⟩
  by_cases h : v.id = tid
  · rw [if_pos h] at hvu
    exact absurd (hvu ▸ h) hne
  · exact (if_neg h ▸ hvu) ▸ hv

/-- C8: when the handle for the popped task's `(plugin_id, hook)` pair cannot
be resolved on the plugin manager, `run_once` marks the task errored with
"Hook not found" (`finished_at` set) and returns progress to the caller
instead of raising. -/
theorem C8_unresolved_hook_marks_error (resolve : ResolveFn) (push : PushFn)
    (s : EngineState) (tid : Nat) (q' : List Nat) (task : Task)
    (hq : s.queue = tid :: q')
    (ht : get_task s.store tid = some task)
    (hr : resolve task.plugin_id task.hook = Option.none) :
    (run_once resolve push s).progressed = true ∧
    get_task (run_once resolve push s).state.store tid =
      some { task with finished_at := some s.now, error := some "Hook not found" } ∧
    (run_once resolve push s).state.queue = q' := by
  have h1 : run_once resolve push s =
      ⟨true,
        { s with queue := q', store := mark_error s.store tid "Hook not found" s.now },
        [.pop (some tid), .err tid "Hook not found"]⟩ := by
    unfold run_once
    rw [hq]
    simp only [ht, hr]
  rw [h1]
  refine ⟨rfl, ?_, rfl⟩
  show get_task (mark_error s.store tid "Hook not found" s.now) tid = _
  rw [get_task_mark_error, ht]
  rfl

/-- Witness for C8 on a one-task state whose hook resolves to nothing. -/
theorem C8_unresolved_hook_marks_error_witness :
    (run_once (fun _ _ => Option.none) in_memory_push
        { store := [{ id := 0, plugin_id := "p", hook := "h" }],
          queue := [0], nextId := 1, now := 3 }).progressed = true :=
  (C8_unresolved_hook_marks_error (fun _ _ => Option.none) in_memory_push
    { store := [{ id := 0, plugin_id := "p", hook := "h" }],
      queue := [0], nextId := 1, now := 3 }
    0 [] { id := 0, plugin_id := "p", hook := "h" }
    rfl rfl rfl).1

/-- Consecutive fresh ids handed out during one drain. -/
def idsFrom : Nat → Nat → List Nat
  | _, 0 => []
  | start, n + 1 => start :: idsFrom (start + 1) n

/-- The event trace of a fully successful drain of `n` children starting at
id `start`: create, then push, per child. -/
def spawnTrace : Nat → Nat → List Ev
  | _, 0 => []
  | start, n + 1 => .create start :: .push start :: spawnTrace (start + 1) n

/-- Trace check: every push of an id is preceded by a create of that id
("no child id reaches the queue before it exists in the store"). -/
def createBeforePush (seen : List Nat) : List Ev → Bool
  | [] => true
  | Ev.create tid :: rest => createBeforePush (tid :: seen) rest
  | Ev.push tid :: rest => seen.contains tid && createBeforePush seen rest
  | Ev.pop _ :: rest => createBeforePush seen rest
  | Ev.done _ :: rest => createBeforePush seen rest
  | Ev.err _ _ :: rest => createBeforePush seen rest

theorem spawn_children_in_memory (parent : Task) (s : EngineState)
    (cs : List TaskChildRequest) :
    spawn_children in_memory_push parent s cs =
      ⟨{ store := s.store ++ mkChildTasks s.nextId s.now parent cs,
         queue := s.queue ++ idsFrom s.nextId cs.length,
         nextId := s.nextId + cs.length,
         now := s.now },
        spawnTrace s.nextId cs.length,
        Option.none⟩ := by
  induction cs generalizing s with
  | nil => simp [spawn_children, mkChildTasks, idsFrom, spawnTrace]
  | cons c rest ih =>
      simp only [spawn_children, in_memory_push, create_task]
      rw [ih]
      have harith : s.nextId + 1 + rest.length = s.nextId + (rest.length + 1) := by omega
      simp [mkChildTasks, idsFrom, spawnTrace, List.append_assoc, harith,
        List.length_cons]

theorem createBeforePush_spawnTrace (n : Nat) (start : Nat) (seen : List Nat)
    (k : List Ev) (hk : ∀ seen', createBeforePush seen' k = true) :
    createBeforePush seen (spawnTrace start n ++ k) = true := by
  induction n generalizing start seen with
  | zero => simpa [spawnTrace] using hk seen
  | succ m ih =>
      simp only [spawnTrace, List.cons_append, createBeforePush]
      rw [Bool.and_eq_true]
      exact ⟨by simp [List.contains_cons], ih (start + 1) (start :: seen)⟩

theorem mkChildTasks_parent (startId now : Nat) (parent : Task)
    (cs : List TaskChildRequest) :
    ∀ u ∈ mkChildTasks startId now parent cs, u.parent_id = some parent.id := by
  induction cs generalizing startId with
  | nil => intro u hu; exact absurd hu (List.not_mem_nil u)
  | cons c rest ih =>
      intro u hu
      rcases List.mem_cons.mp hu with h | h
      · rw [h]; rfl
      · exact ih (startId + 1) u h

theorem mkChildTasks_forall₂ (startId now : Nat) (parent : Task)
    (cs : List TaskChildRequest) :
    List.Forall₂ (fun c u =>
        u.parent_id = some parent.id ∧
        u.hook = c.hook ∧
        u.plugin_id = pyStrOr c.plugin_id parent.plugin_id ∧
        startId ≤ u.id)
      cs (mkChildTasks startId now parent cs) := by
  induction cs generalizing startId with
  | nil => exact List.Forall₂.nil
  | cons c rest ih =>
      refine List.Forall₂.cons ⟨rfl, rfl, rfl, Nat.le_refl _⟩ ?_
      exact List.Forall₂.imp
        (fun a b h => ⟨h.1, h.2.1, h.2.2.1, Nat.le_of_succ_le h.2.2.2⟩)
        (ih (startId + 1))

theorem find?_append_some {α : Type} (p : α → Bool) (l₁ l₂ : List α) (a : α)
    (h : l₁.find? p = some a) : (l₁ ++ l₂).find? p = some a := by
  induction l₁ with
  | nil => exact Option.noConfusion h
  | cons x xs ih =>
      rw [List.cons_append]
      by_cases hp : p x = true
      · rwa [List.find?_cons_of_pos _ hp] at h ⊢
      · rw [List.find?_cons_of_neg _ hp] at h ⊢
        exact ih h

theorem spawn_children_spec (push : PushFn) (parent : Task) (s : EngineState)
    (cs : List TaskChildRequest) :
    ∃ k, k ≤ cs.length ∧
      (spawn_children push parent s cs).state.store =
        s.store ++ mkChildTasks s.nextId s.now parent (cs.take k) ∧
      (spawn_children push parent s cs).state.now = s.now := by
  induction cs generalizing s with
  | nil => exact ⟨0, Nat.le_refl _, by simp [spawn_children, mkChildTasks], rfl⟩
  | cons c rest ih =>
      simp only [spawn_children, create_task]
      cases hp : push s.queue s.nextId with
      | error msg =>
          refine ⟨1, by simp, ?_, rfl⟩
          simp [mkChildTasks, List.take]
      | ok q' =>
          obtain ⟨k, hk, hst, hnow⟩ := ih
            { s with
              store := s.store ++ [mkChildTask s.nextId s.now parent c],
              queue := q',
              nextId := s.nextId + 1 }
          refine ⟨k + 1, by simpa using Nat.succ_le_succ hk, ?_, hnow⟩
          rw [hst]
          simp [mkChildTasks, List.take, List.append_assoc]

/-- C3: for every child request drained by `run_once` from the current
task's context (with the in-memory backends): the created child records all
carry `parent_id = task.id`, hook and plugin id taken from the request with
the plugin id defaulted to the current task's when left unset, and ids fresh
with respect to the existing store; the final store is the old store plus
exactly those records (with the current task then marked done), the fresh
ids are enqueued in order; and in the operation trace every push of a child
id is preceded by the creation of its store record. -/
theorem C3_run_once_child_spawning (resolve : ResolveFn) (s : EngineState)
    (tid : Nat) (q' : List Nat) (task : Task) (behavior : HookBehavior)
    (staged : List (Option TaskChildRequest)) (children : List TaskChildRequest)
    (hq : s.queue = tid :: q')
    (ht : get_task s.store tid = some task)
    (hr : resolve task.plugin_id task.hook = some behavior)
    (hb : behavior task = .ok staged)
    (hc : children = collect_children task staged)
    (hwf : ∀ u ∈ s.store, u.id < s.nextId) :
    (run_once resolve in_memory_push s).progressed = true ∧
    (run_once resolve in_memory_push s).state.store =
      mark_done (s.store ++ mkChildTasks s.nextId s.now task children) tid s.now ∧
    (run_once resolve in_memory_push s).state.queue =
      q' ++ idsFrom s.nextId children.length ∧
    List.Forall₂ (fun c u =>
        u.parent_id = some task.id ∧
        u.hook = c.hook ∧
        u.plugin_id = pyStrOr c.plugin_id task.plugin_id ∧
        (∀ v ∈ s.store, v.id ≠ u.id))
      children (mkChildTasks s.nextId s.now task children) ∧
    (∀ cr : TaskChildRequest, some cr ∈ staged → cr.plugin_id = Option.none →
      ({ cr with plugin_id := some task.plugin_id } : TaskChildRequest) ∈ children) ∧
    createBeforePush [] (run_once resolve in_memory_push s).trace = true := by
  have hsp := spawn_children_in_memory task { s with queue := q' } children
  have h1 : run_once resolve in_memory_push s =
      ⟨true,
        { store := mark_done (s.store ++ mkChildTasks s.nextId s.now task children) tid s.now,
          queue := q' ++ idsFrom s.nextId children.length,
          nextId := s.nextId + children.length,
          now := s.now },
        .pop (some tid) :: (spawnTrace s.nextId children.length ++ [.done tid])⟩ := by
    unfold run_once
    rw [hq]
    simp only [ht, hr, hb]
    rw [← hc, hsp]
    rfl
  refine ⟨by rw [h1], by rw [h1], by rw [h1], ?_, ?_, ?_⟩
  · exact List.Forall₂.imp
      (fun c u h => ⟨h.1, h.2.1, h.2.2.1,
        fun v hv => Nat.ne_of_lt (Nat.lt_of_lt_of_le (hwf v hv) h.2.2.2)⟩)
      (mkChildTasks_forall₂ s.nextId s.now task children)
  · intro cr hmem hplug
    rw [hc]
    unfold collect_children
    apply List.mem_filterMap.mpr
    exact ⟨some cr, hmem, by simp [hplug]⟩
  · rw [h1]
    show createBeforePush [] (spawnTrace s.nextId children.length ++ [.done tid]) = true
    exact createBeforePush_spawnTrace children.length s.nextId []
      [.done tid] (fun seen' => rfl)

/-- Witness for C3: one queued task whose hook stages a single child
request with no plugin id. -/
theorem C3_run_once_child_spawning_witness :
    createBeforePush []
      (run_once (fun _ _ => some (fun _ => .ok [some { hook := "child" }]))
        in_memory_push
        { store := [{ id := 0, plugin_id := "p", hook := "h" }],
          queue := [0], nextId := 1, now := 7 }).trace = true :=
  (C3_run_once_child_spawning
    (fun _ _ => some (fun _ => .ok [some { hook := "child" }]))
    { store := [{ id := 0, plugin_id := "p", hook := "h" }],
      queue := [0], nextId := 1, now := 7 }
    0 [] { id := 0, plugin_id := "p", hook := "h" }
    (fun _ => .ok [some { hook := "child" }])
    [some { hook := "child" }]
    [{ hook := "child", plugin_id := some "p" }]
    rfl rfl rfl rfl rfl (by decide)).2.2.2.2.2

/-- C4: when the hook invocation or the child drain raises, `run_once` marks
that one task errored with the exception's message (`finished_at` set),
still returns progress to the caller, leaves every other pre-existing
record in place and unmodified (new records are only children of the
current task), and does not roll back children persisted before the
failure. -/
theorem C4_run_once_failure_isolation (resolve : ResolveFn) (push : PushFn)
    (s : EngineState) (tid : Nat) (q' : List Nat) (task : Task)
    (behavior : HookBehavior) (msg : String)
    (hq : s.queue = tid :: q')
    (ht : get_task s.store tid = some task)
    (hr : resolve task.plugin_id task.hook = some behavior)
    (hfail : behavior task = .error msg ∨
      (∃ staged, behavior task = .ok staged ∧
        (spawn_children push task { s with queue := q' }
          (collect_children task staged)).failed = some msg)) :
    (run_once resolve push s).progressed = true ∧
    get_task (run_once resolve push s).state.store tid =
      some { task with finished_at := some s.now, error := some msg } ∧
    (∀ u ∈ s.store, u.id ≠ tid → u ∈ (run_once resolve push s).state.store) ∧
    (∀ u ∈ (run_once resolve push s).state.store, u.id ≠ tid →
      u ∈ s.store ∨ u.parent_id = some task.id) ∧
    (∀ staged, behavior task = .ok staged →
      ∀ u ∈ (spawn_children push task { s with queue := q' }
          (collect_children task staged)).state.store,
        u.id ≠ tid → u ∈ (run_once resolve push s).state.store) := by
  rcases hfail with herr | ⟨staged₀, hok, hfl⟩
  · have h1 : run_once resolve push s =
        ⟨true, { s with queue := q', store := mark_error s.store tid msg s.now },
          [.pop (some tid), .err tid msg]⟩ := by
      unfold run_once
      rw [hq]
      simp only [ht, hr, herr]
    rw [h1]
    refine ⟨rfl, ?_, ?_, ?_, ?_⟩
    · show get_task (mark_error s.store tid msg s.now) tid = _
      rw [get_task_mark_error, ht]
      rfl
    · intro u hu hne
      exact mem_mark_error_of_ne _ _ _ _ u hu hne
    · intro u hu hne
      exact Or.inl (mem_of_mem_mark_error _ _ _ _ u hu hne)
    · intro staged hok
      rw [herr] at hok
      exact Except.noConfusion hok
  · obtain ⟨k, hk, hst, hnow⟩ := spawn_children_spec push task { s with queue := q' }
      (collect_children task staged₀)
    have h1 : run_once resolve push s =
        ⟨true,
          { (spawn_children push task { s with queue := q' }
              (collect_children task staged₀)).state with
            store := mark_error
              (spawn_children push task { s with queue := q' }
                (collect_children task staged₀)).state.store tid msg
              (spawn_children push task { s with queue := q' }
                (collect_children task staged₀)).state.now },
          .pop (some tid) ::
            (spawn_children push task { s with queue := q' }
              (collect_children task staged₀)).trace ++ [.err tid msg]⟩ := by
      unfold run_once
      rw [hq]
      simp only [ht, hr, hok]
      rw [hfl]
    have hfound : get_task (spawn_children push task { s with queue := q' }
        (collect_children task staged₀)).state.store tid = some task := by
      rw [hst]
      exact find?_append_some _ _ _ _ ht
    rw [h1]
    refine ⟨rfl, ?_, ?_, ?_, ?_⟩
    · show get_task (mark_error _ tid msg _) tid = _
      rw [get_task_mark_error, hfound, hnow]
      rfl
    · intro u hu hne
      refine mem_mark_error_of_ne _ _ _ _ u ?_ hne
      rw [hst]
      exact List.mem_append_left _ hu
    · intro u hu hne
      have hu' := mem_of_mem_mark_error _ _ _ _ u hu hne
      rw [hst] at hu'
      rcases List.mem_append.mp hu' with h | h
      · exact Or.inl h
      · exact Or.inr (mkChildTasks_parent _ _ task _ u h)
    · intro staged hok' u hu hne
      have hss : staged = staged₀ := by
        rw [hok] at hok'
        exact (Except.ok.inj hok').symm
      rw [hss] at hu
      exact mem_mark_error_of_ne _ _ _ _ u hu hne

/-- Witness for C4: one queued task whose hook raises. -/
theorem C4_run_once_failure_isolation_witness :
    get_task (run_once (fun _ _ => some (fun _ => .error "boom")) in_memory_push
        { store := [{ id := 0, plugin_id := "p", hook := "h" }],
          queue := [0], nextId := 1, now := 9 }).state.store 0 =
      some { id := 0, plugin_id := "p", hook := "h",
             finished_at := some 9, error := some "boom" } :=
  (C4_run_once_failure_isolation
    (fun _ _ => some (fun _ => .error "boom")) in_memory_push
    { store := [{ id := 0, plugin_id := "p", hook := "h" }],
      queue := [0], nextId := 1, now := 9 }
    0 [] { id := 0, plugin_id := "p", hook := "h" }
    (fun _ => .error "boom") "boom"
    rfl rfl rfl (Or.inl rfl)).2.1

/-- The tree rooted at a task: itself and everything transitively reachable
through `list_children` — exactly what `is_tree_done` walks. -/
inductive Descendant (store : TaskStore) : Task → Task → Prop
  | refl (t : Task) : Descendant store t t
  | child (t c d : Task) : c ∈ list_children store t.id →
      Descendant store c d → Descendant store t d

/-- Position-derived rank of a task: records created later (further down
the list) have smaller rank. -/
def rankIn (store : TaskStore) (t : Task) : Nat :=
  store.length - store.findIdx (fun u => u.id = t.id)

/-- Store well-formedness as maintained by the engine: record ids are
unique and every child record was created strictly after its parent. -/
def StoreWF (store : TaskStore) : Prop :=
  (store.map Task.id).Nodup ∧
    ∀ t ∈ store, ∀ c ∈ list_children store t.id, rankIn store c < rankIn store t

instance (store : TaskStore) : Decidable (StoreWF store) := by
  unfold StoreWF
  exact inferInstance

theorem rankIn_pos (store : TaskStore) (t : Task) (htm : t ∈ store) :
    0 < rankIn store t := by
  have hlt : store.findIdx (fun u => u.id = t.id) < store.length :=
    List.findIdx_lt_length_of_exists ⟨t, htm, by simp⟩
  unfold rankIn
  omega

theorem walkFuel_adequate (store : TaskStore) (hwf : StoreWF store) :
    ∀ (fuel : Nat) (t : Task), t ∈ store → rankIn store t ≤ fuel →
      (walkFuel fuel store t = true ↔
        ∀ d, Descendant store t d →
          (d.finished_at.isSome = true ∧ d.error = Option.none)) := by
  intro fuel
  induction fuel with
  | zero =>
      intro t htm hrk
      exact absurd hrk (by have := rankIn_pos store t htm; omega)
  | succ m ih =>
      intro t htm hrk
      rw [walkFuel, Bool.and_eq_true, Bool.and_eq_true, List.all_eq_true]
      constructor
      · rintro ⟨⟨hfin, herr⟩, hchildren⟩ d hd
        cases hd with
        | refl => exact ⟨hfin, Option.isNone_iff_eq_none.mp herr⟩
        | child _ c _ hc hcd =>
            have hcm : c ∈ store := List.mem_of_mem_filter hc
            have hcrk : rankIn store c ≤ m := by
              have := hwf.2 t htm c hc
              omega
            exact (ih c hcm hcrk).mp (hchildren c hc) d hcd
      · intro hall
        refine ⟨⟨(hall t (Descendant.refl t)).1,
          Option.isNone_iff_eq_none.mpr (hall t (Descendant.refl t)).2⟩, ?_⟩
        intro c hc
        have hcm : c ∈ store := List.mem_of_mem_filter hc
        have hcrk : rankIn store c ≤ m := by
          have := hwf.2 t htm c hc
          omega
        exact (ih c hcm hcrk).mpr (fun d hd => hall d (Descendant.child t c d hc hd))

/-- C5: on a well-formed store, `is_tree_done root` is true exactly when the
root exists in the store and every task of the tree rooted there (the root
and all transitive children) has `finished_at` set and `error` null; a root
id missing from the store yields false. -/
theorem C5_is_tree_done_characterization (store : TaskStore) (rootId : Nat)
    (hwf : StoreWF store) :
    (is_tree_done store rootId = true ↔
      ∃ r, get_task store rootId = some r ∧
        ∀ d, Descendant store r d →
          (d.finished_at.isSome = true ∧ d.error = Option.none)) ∧
    (get_task store rootId = Option.none → is_tree_done store rootId = false) := by
  constructor
  · unfold is_tree_done
    cases hg : get_task store rootId with
    | none => simp
    | some r =>
        have hrm : r ∈ store := List.mem_of_find?_eq_some hg
        have hrank : rankIn store r ≤ store.length + 1 := by
          unfold rankIn
          omega
        rw [show (match some r with
            | Option.none => false
            | some t => walkFuel (store.length + 1) store t) =
              walkFuel (store.length + 1) store r from rfl]
        rw [walkFuel_adequate store hwf (store.length + 1) r hrm hrank]
        constructor
        · intro h
          exact ⟨r, rfl, h⟩
        · rintro ⟨r', hr', h⟩
          rw [← Option.some.inj hr'] at h
          exact h
  · intro hg
    unfold is_tree_done
    rw [hg]

/-- Witness for C5: a one-record store queried at an absent root id. -/
theorem C5_is_tree_done_characterization_witness :
    is_tree_done [{ id := 1, plugin_id := "p", hook := "h", finished_at := some 5 }]
      2 = false :=
  (C5_is_tree_done_characterization
    [{ id := 1, plugin_id := "p", hook := "h", finished_at := some 5 }] 2
    (by decide)).2 rfl

end Flux

namespace Agent

/-!
Embedding of the asynchronous agent worker (`flux_capacitor/agent.py`) and
the job persistence layer (`flux_capacitor/jobs.py`).

Await points of the single worker are cooperative and sequential, so the
worker's message handling is modelled as a sequential function; queue and
store operations are logged in an event trace.  Job ids (uuid strings) come
from a fresh-id supply; metadata is a string map.
-/

/-- `JobStatus` from `jobs.py`. -/
inductive JobStatus where
  | PENDING
  | RUNNING
  | DONE
  | FAILED
  deriving Repr, DecidableEq

/-- A payload mapping as carried by messages and child requests. -/
structure JobPayloadDict where
  repository : Option String := Option.none
  id : Option String := Option.none
  meta : List (String × String) := []
  deriving Repr, DecidableEq

/-- `PayloadRef` from `jobs.py`. -/
structure AgentPayloadRef where
  repository : String := ""
  id : String := ""
  meta : List (String × String) := []
  deriving Repr, DecidableEq

/-- `PayloadRef.from_mapping` from `jobs.py`: empty/absent mapping gives
`None`; fields default to the empty string. -/
def AgentPayloadRef.from_mapping : Option JobPayloadDict → Option AgentPayloadRef
  | Option.none => Option.none
  | some d =>
      if d = {} then Option.none
      else some { repository := d.repository.getD "", id := d.id.getD "", meta := d.meta }

/-- `AsyncJob` from `jobs.py`. -/
structure AsyncJob where
  job_id : String
  parent_job_id : Option String := Option.none
  root_input_id : String
  plugin_id : String
  hook : String
  payload_ref : Option AgentPayloadRef := Option.none
  metadata : List (String × String) := []
  status : JobStatus := JobStatus.PENDING
  deriving Repr, DecidableEq

/-- `ChildJobRequest` from `jobs.py` (the dataclass annotates `plugin_id`
as `str` but `_collect_children` checks it for `None`, so it is optional
in practice). -/
structure ChildJobRequest where
  hook : String
  plugin_id : Option String := Option.none
  payload_ref : Option JobPayloadDict := Option.none
  metadata : Option (List (String × String)) := Option.none
  job_id : Option String := Option.none
  deriving Repr, DecidableEq

/-- `AgentHookResult` from `jobs.py`: the wrapper carrying a child list. -/
structure AgentHookResult where
  children : List ChildJobRequest := []
  deriving Repr, DecidableEq

/-- A shaped dictionary as returned by a hook (`isinstance(result, dict)`
with an optional `hook` key). -/
structure ChildDict where
  hook : Option String := Option.none
  plugin_id : Option String := Option.none
  payload_ref : Option JobPayloadDict := Option.none
  metadata : Option (List (String × String)) := Option.none
  job_id : Option String := Option.none
  deriving Repr, DecidableEq

/-- An element of a returned sequence, as `_collect_children` distinguishes
them: a `ChildJobRequest`, a shaped dictionary, or anything else. -/
inductive SeqItem where
  | child (c : ChildJobRequest)
  | dict (d : ChildDict)
  | other
  deriving Repr, DecidableEq

/-- The dynamic shape of a hook's return value, as `_collect_children`
distinguishes it: the result wrapper, a single request, a shaped dict, a
sequence (`str`/`bytes` excluded by the source and inert here), or any
other value. -/
inductive HookResultVal where
  | wrapper (r : AgentHookResult)
  | childReq (c : ChildJobRequest)
  | dict (d : ChildDict)
  | seq (items : List SeqItem)
  | strOrBytes (s : String)
  | noneVal
  | other
  deriving Repr, DecidableEq

/-- `AgentWorker._normalize_child_request`: build a request from a shaped
dictionary, defaulting a falsy plugin id to the job's. -/
def normalize_child_request (item : ChildDict) (job : AsyncJob) : ChildJobRequest :=
  { hook := item.hook.getD "",
    plugin_id := some (Flux.pyStrOr item.plugin_id job.plugin_id),
    payload_ref := item.payload_ref,
    metadata := item.metadata,
    job_id := item.job_id }

/-- The result-value part of `_collect_children`: requests contributed by
the returned value, in source order. -/
def resultRequests (job : AsyncJob) : HookResultVal → List ChildJobRequest
  | .wrapper r => r.children
  | .childReq c => [c]
  | .dict d => if d.hook.isSome then [normalize_child_request d job] else []
  | .seq items => items.filterMap (fun it =>
      match it with
      | SeqItem.child c => some c
      | SeqItem.dict d =>
          if d.hook.isSome then some (normalize_child_request d job) else Option.none
      | SeqItem.other => Option.none)
  | .strOrBytes _ => []
  | .noneVal => []
  | .other => []

/-- `AgentWorker._collect_children`: context-staged requests first, then the
requests carried by the result value; `None` entries dropped and a missing
`plugin_id` defaulted to the job's. -/
def collect_children (staged : List (Option ChildJobRequest)) (result : HookResultVal)
    (job : AsyncJob) : List ChildJobRequest :=
  (staged ++ (resultRequests job result).map some).filterMap (fun r =>
    match r with
    | Option.none => Option.none
    | some req =>
        some { req with plugin_id :=
          match req.plugin_id with
          | Option.none => some job.plugin_id
          | some p => some p })

/-- Worker-visible job-store state: persisted jobs, fresh-id supply, clock. -/
structure AgentState where
  jobs : List AsyncJob := []
  nextId : Nat := 0
  now : Nat := 0
  deriving Repr, DecidableEq

/-- The uuid supply, modelled as numbered ids. -/
def freshJobId (n : Nat) : String := "job-" ++ toString n

/-- `_persist_job`: insert, or replace the record with the same id. -/
def persist_job (jobs : List AsyncJob) (j : AsyncJob) : List AsyncJob :=
  if jobs.any (fun x => x.job_id = j.job_id) then
    jobs.map (fun x => if x.job_id = j.job_id then j else x)
  else jobs ++ [j]

/-- `get_job`. -/
def get_job (jobs : List AsyncJob) (jid : String) : Option AsyncJob :=
  jobs.find? (fun j => j.job_id = jid)

/-- Python `dict.update`: later keys override. -/
def mergeMeta (base overrides : List (String × String)) : List (String × String) :=
  base.filter (fun kv => ¬ (overrides.map Prod.fst).contains kv.fst) ++ overrides

/-- `BaseJobStore.create_job`: base metadata (`retry`, `created_at`) updated
with the given metadata, a fresh uuid when no truthy job id was supplied,
status `PENDING`, then persist. -/
def create_job (s : AgentState) (plugin_id hook root_input_id : String)
    (payload_ref : Option JobPayloadDict) (metadata : Option (List (String × String)))
    (parent_job_id : Option String) (job_id : Option String) : AsyncJob × AgentState :=
  let base : List (String × String) := [("retry", "0"), ("created_at", toString s.now)]
  let meta := match metadata with
    | Option.none => base
    | some m => mergeMeta base m
  let useFresh := match job_id with
    | Option.none => true
    | some j => j = ""
  let jid := if useFresh then freshJobId s.nextId else job_id.getD ""
  let nid := if useFresh then s.nextId + 1 else s.nextId
  let job : AsyncJob :=
    { job_id := jid, parent_job_id := parent_job_id, root_input_id := root_input_id,
      plugin_id := plugin_id, hook := hook,
      payload_ref := AgentPayloadRef.from_mapping payload_ref,
      metadata := meta, status := JobStatus.PENDING }
  (job, { s with jobs := persist_job s.jobs job, nextId := nid })

/-- `mark_status` (as realized by the in-memory store of the test suite):
set the status; record the reason in the metadata when given. -/
def mark_status (jobs : List AsyncJob) (jid : String) (st : JobStatus)
    (error : Option String) : List AsyncJob :=
  jobs.map (fun j =>
    if j.job_id = jid then
      { j with
        status := st,
        metadata := match error with
          | Option.none => j.metadata
          | some e => mergeMeta j.metadata [("error", e)] }
    else j)

/-- The task-message wire format (`AsyncJob.message()` keys). -/
structure AgentMessage where
  job_id : Option String := Option.none
  parent_job_id : Option String := Option.none
  root_input_id : String := ""
  plugin_id : String := ""
  hook : String := ""
  payload_ref : Option JobPayloadDict := Option.none
  metadata : Option (List (String × String)) := Option.none
  deriving Repr, DecidableEq

/-- Observable behavior of the hook invocation in `_handle_message`: raise,
or return with the requests staged on the context plus the returned value. -/
def AgentBehavior := AsyncJob → Except String (List (Option ChildJobRequest) × HookResultVal)

/-- Modelled from the spec: `Morpheus.resolve_hook` (also called by
`AgentWorker._handle_message`) is not defined under `src/`; per the spec the
worker resolves the handle for `(plugin_id, hook)` and fails the job when it
is unresolved. -/
def AgentResolveFn := String → String → Option AgentBehavior

/-- Store / queue operations of `_handle_message`, in program order. -/
inductive AEv where
  | persist (jid : String)
  | markRunning (jid : String)
  | enqueueBatch (jids : List String)
  | markDone (jid : String)
  | markFailed (jid : String) (reason : String)
  deriving Repr, DecidableEq

/-- `AgentWorker._load_or_restore_job`: reuse the referenced job when its id
is truthy and known, otherwise create (and persist) the job from the
message. -/
def load_or_restore (s : AgentState) (msg : AgentMessage) :
    AsyncJob × AgentState × List AEv :=
  let lookup :=
    match msg.job_id with
    | some jid => if jid = "" then Option.none else get_job s.jobs jid
    | Option.none => Option.none
  match lookup with
  | some existing => (existing, s, [])
  | Option.none =>
      let out := create_job s msg.plugin_id msg.hook msg.root_input_id
        msg.payload_ref msg.metadata msg.parent_job_id msg.job_id
      (out.1, out.2, [AEv.persist out.1.job_id])

/-- The per-child `create_job` loop of `_handle_message` (sequential awaits
of the list comprehension): returns the created jobs, the state, and one
persist event per child in order. -/
def create_children (s : AgentState) (job : AsyncJob) :
    List ChildJobRequest → List AsyncJob × AgentState × List AEv
  | [] => ([], s, [])
  | c :: rest =>
      let out := create_job s (c.plugin_id.getD "") c.hook job.root_input_id
        c.payload_ref c.metadata (some job.job_id) c.job_id
      let tail := create_children out.2 job rest
      (out.1 :: tail.1, tail.2.1, AEv.persist out.1.job_id :: tail.2.2)

/-- `AgentWorker._handle_message`: load or restore the job, mark it running,
resolve the hook (failing the job when unresolved), invoke it, collect the
children from all three declaration paths, persist every child and only
then batch-enqueue them, and mark the job done; a raise from the hook fails
the job with the message. -/
def handle_message (resolve : AgentResolveFn) (s : AgentState) (msg : AgentMessage) :
    AgentState × List AEv :=
  match load_or_restore s msg with
  | (job, s1, evs0) =>
    let s2 := { s1 with jobs := mark_status s1.jobs job.job_id JobStatus.RUNNING Option.none }
    match resolve job.plugin_id job.hook with
    | Option.none =>
        ({ s2 with
            jobs := mark_status s2.jobs job.job_id JobStatus.FAILED (some "Hook not found") },
          evs0 ++ [AEv.markRunning job.job_id, AEv.markFailed job.job_id "Hook not found"])
    | some behavior =>
      match behavior job with
      | .error reason =>
          ({ s2 with jobs := mark_status s2.jobs job.job_id JobStatus.FAILED (some reason) },
            evs0 ++ [AEv.markRunning job.job_id, AEv.markFailed job.job_id reason])
      | .ok (staged, result) =>
          let children := collect_children staged result job
          if children.isEmpty then
            ({ s2 with jobs := mark_status s2.jobs job.job_id JobStatus.DONE Option.none },
              evs0 ++ [AEv.markRunning job.job_id, AEv.markDone job.job_id])
          else
            let made := create_children s2 job children
            ({ made.2.1 with
                jobs := mark_status made.2.1.jobs job.job_id JobStatus.DONE Option.none },
              evs0 ++ AEv.markRunning job.job_id :: made.2.2 ++
                [AEv.enqueueBatch (made.1.map AsyncJob.job_id), AEv.markDone job.job_id])

theorem create_children_spec (s : AgentState) (job : AsyncJob)
    (cs : List ChildJobRequest) :
    (create_children s job cs).2.2 =
      (create_children s job cs).1.map (fun j => AEv.persist j.job_id) ∧
    (create_children s job cs).1.length = cs.length := by
  induction cs generalizing s with
  | nil => exact ⟨rfl, rfl⟩
  | cons c rest ih =>
      simp only [create_children, List.map, List.length_cons]
      obtain ⟨h1, h2⟩ := ih (create_job s (c.plugin_id.getD "") c.hook job.root_input_id
        c.payload_ref c.metadata (some job.job_id) c.job_id).2
      exact ⟨by rw [h1], by rw [h2]⟩

theorem collect_children_forall₂ (staged : List (Option ChildJobRequest))
    (result : HookResultVal) (job : AsyncJob) :
    List.Forall₂ (fun r c =>
        c.hook = r.hook ∧
        (r.plugin_id = Option.none → c.plugin_id = some job.plugin_id) ∧
        (∀ p, r.plugin_id = some p → c.plugin_id = some p))
      ((staged ++ (resultRequests job result).map some).reduceOption)
      (collect_children staged result job) := by
  unfold collect_children
  generalize (staged ++ (resultRequests job result).map some) = l
  induction l with
  | nil => exact List.Forall₂.nil
  | cons x xs ih =>
      cases x with
      | none => simpa [List.reduceOption_cons_of_none, List.filterMap_cons] using ih
      | some req =>
          rw [List.reduceOption_cons_of_some]
          simp only [List.filterMap_cons]
          refine List.Forall₂.cons ⟨rfl, ?_, ?_⟩ ih
          · intro hnone
            simp only [hnone]
          · intro p hp
            simp only [hp]

/-- C9 (amended): for an async job whose hook returns successfully, the
child requests gathered from all three declaration paths (context-staged,
result wrapper, returned record / sequence / shaped dictionaries) are
normalized — null entries dropped, a missing plugin id defaulted to the
job's — with no deduplication performed; the resulting children are
batch-enqueued in one call strictly after every one of them has been
persisted in the job store. -/
theorem C9_children_normalize_persist_then_enqueue
    (resolve : AgentResolveFn) (s : AgentState) (msg : AgentMessage)
    (job : AsyncJob) (s1 : AgentState) (evs0 : List AEv)
    (behavior : AgentBehavior)
    (staged : List (Option ChildJobRequest)) (result : HookResultVal)
    (hload : load_or_restore s msg = (job, s1, evs0))
    (hr : resolve job.plugin_id job.hook = some behavior)
    (hb : behavior job = .ok (staged, result)) :
    List.Forall₂ (fun r c =>
        c.hook = r.hook ∧
        (r.plugin_id = Option.none → c.plugin_id = some job.plugin_id) ∧
        (∀ p, r.plugin_id = some p → c.plugin_id = some p))
      ((staged ++ (resultRequests job result).map some).reduceOption)
      (collect_children staged result job) ∧
    (∃ created : List AsyncJob,
      created.length = (collect_children staged result job).length ∧
      (handle_message resolve s msg).2 =
        evs0 ++ AEv.markRunning job.job_id ::
          (if (collect_children staged result job).isEmpty then
            [AEv.markDone job.job_id]
           else
            created.map (fun j => AEv.persist j.job_id) ++
              [AEv.enqueueBatch (created.map AsyncJob.job_id),
               AEv.markDone job.job_id])) := by
  refine ⟨collect_children_forall₂ staged result job, ?_⟩
  unfold handle_message
  rw [hload]
  simp only [hr, hb]
  by_cases hemp : (collect_children staged result job).isEmpty
  · refine ⟨[], ?_, ?_⟩
    · rw [List.isEmpty_iff.mp hemp]
      rfl
    · simp [hemp]
  · obtain ⟨hmap, hlen⟩ := create_children_spec
      { s1 with jobs := mark_status s1.jobs job.job_id JobStatus.RUNNING Option.none }
      job (collect_children staged result job)
    refine ⟨(create_children
      { s1 with jobs := mark_status s1.jobs job.job_id JobStatus.RUNNING Option.none }
      job (collect_children staged result job)).1, hlen, ?_⟩
    simp only [hemp, if_neg, Bool.false_eq_true, not_false_eq_true]
    rw [← hmap]
    simp [List.append_assoc]

/-- Counterexample to C9 as stated: the very same child request declared
both on the context and as the returned value survives collection twice —
`_collect_children` performs no deduplication before enqueue. -/
theorem C9_counterexample_no_dedup :
    collect_children
      [some { hook := "h", plugin_id := some "p" }]
      (.childReq { hook := "h", plugin_id := some "p" })
      { job_id := "j", root_input_id := "r", plugin_id := "p", hook := "h" } =
      [{ hook := "h", plugin_id := some "p" },
       { hook := "h", plugin_id := some "p" }] := rfl

/-- The job of the C9 witness scenario (as created from its message). -/
def c9Job : AsyncJob :=
  { job_id := "job-0", root_input_id := "r", plugin_id := "p", hook := "h",
    metadata := [("retry", "0"), ("created_at", "0")] }

/-- The job-store state after the C9 witness job was created. -/
def c9State : AgentState := { jobs := [c9Job], nextId := 1, now := 0 }

/-- The staged child and returned child of the C9 witness scenario. -/
def c9Staged : List (Option ChildJobRequest) := [some { hook := "h1" }]

/-- The result value of the C9 witness scenario. -/
def c9Result : HookResultVal := .childReq { hook := "h2", plugin_id := some "q" }

/-- The hook behavior of the C9 witness scenario. -/
def c9Behavior : AgentBehavior := fun _ => .ok (c9Staged, c9Result)

/-- Witness for C9: a worker message whose hook stages one child on the
context and returns another. -/
theorem C9_children_normalize_persist_then_enqueue_witness :
    List.Forall₂ (fun (r : ChildJobRequest) (c : ChildJobRequest) =>
        c.hook = r.hook ∧
        (r.plugin_id = Option.none → c.plugin_id = some c9Job.plugin_id) ∧
        (∀ p, r.plugin_id = some p → c.plugin_id = some p))
      ((c9Staged ++ (resultRequests c9Job c9Result).map some).reduceOption)
      (collect_children c9Staged c9Result c9Job) :=
  (C9_children_normalize_persist_then_enqueue
    (fun _ _ => some c9Behavior)
    {} { plugin_id := "p", hook := "h", root_input_id := "r" }
    c9Job c9State [AEv.persist "job-0"] c9Behavior c9Staged c9Result
    rfl rfl rfl).1

/-- `JobStatusView` from `jobs.py`; `progress` is kept as an exact rational
where the source rounds a float to four digits. -/
structure JobStatusView where
  job_id : String
  status : JobStatus
  children : List JobStatusView := []
  progress : Rat := 0

/-- `BaseJobStore._aggregate_status`. -/
def aggregate_status (status : JobStatus) (children : List JobStatusView) : JobStatus :=
  let cstat := children.map JobStatusView.status
  if cstat.any (fun c => decide (c = JobStatus.FAILED)) then JobStatus.FAILED
  else if cstat.any (fun c =>
      decide (c = JobStatus.RUNNING ∨ c = JobStatus.PENDING)) then JobStatus.RUNNING
  else if status = JobStatus.FAILED then JobStatus.FAILED
  else if status ≠ JobStatus.DONE then status
  else if cstat.any (fun c => decide (c ≠ JobStatus.DONE)) then JobStatus.RUNNING
  else JobStatus.DONE

/-- The lookups of an abstract `BaseJobStore` that `get_status_view` uses:
`get_job` and `get_children_ids`. -/
structure JobStoreView where
  getJob : String → Option AsyncJob
  childrenIds : String → List String

/-- The `KeyError` raised by `_build_view` on a missing record; `fuelOut`
marks recursion-depth exhaustion of the embedding (the source recursion is
unbounded). -/
inductive AErr where
  | keyError (jid : String)
  | fuelOut
  deriving Repr, DecidableEq

mutual

/-- `_build_view` inside `BaseJobStore.get_status_view`: fetch the record
(raising `KeyError` when absent), recurse into the children ids, count
leaves, aggregate the status and compute progress. -/
def build_view (st : JobStoreView) : Nat → String → Except AErr (JobStatusView × Nat × Nat)
  | 0, _ => .error AErr.fuelOut
  | fuel + 1, jid =>
      match st.getJob jid with
      | Option.none => .error (.keyError jid)
      | some job =>
          match build_children st fuel (st.childrenIds jid) with
          | .error e => .error e
          | .ok (views, total, doneCnt) =>
              let leaves :=
                if (st.childrenIds jid).isEmpty then
                  ((1 : Nat), if job.status = JobStatus.DONE then (1 : Nat) else 0)
                else (total, doneCnt)
              let aggregated := aggregate_status job.status views
              let progress : Rat :=
                if leaves.1 = 0 then (if job.status = JobStatus.DONE then 1 else 0)
                else (leaves.2 : Rat) / (leaves.1 : Rat)
              .ok (⟨job.job_id, aggregated, views, progress⟩, leaves.1, leaves.2)

/-- The child loop of `_build_view`: visit the children ids in order, the
first error (in particular a `KeyError` on a missing child record)
propagating immediately. -/
def build_children (st : JobStoreView) :
    Nat → List String → Except AErr (List JobStatusView × Nat × Nat)
  | _, [] => .ok ([], 0, 0)
  | fuel, cid :: rest =>
      match build_view st fuel cid with
      | .error e => .error e
      | .ok (v, t, d) =>
          match build_children st fuel rest with
          | .error e => .error e
          | .ok (vs, ts, ds) => .ok (v :: vs, t + ts, d + ds)

end

/-- `BaseJobStore.get_status_view`: the root view of `_build_view`. -/
def get_status_view (st : JobStoreView) (fuel : Nat) (jid : String) :
    Except AErr JobStatusView :=
  match build_view st fuel jid with
  | .error e => .error e
  | .ok (v, _, _) => .ok v

/-- C10: `get_status_view` raises `KeyError` for a job id absent from the
job store — including a child id listed by `get_children_ids` whose record
is missing — instead of returning a status view; unlike the sync engine's
tree-completion query, which answers false for a missing root. -/
theorem C10_get_status_view_missing_raises (st : JobStoreView) (jid : String)
    (fuel : Nat) (hf : fuel ≠ 0)
    (hmiss : st.getJob jid = Option.none) :
    get_status_view st fuel jid = .error (.keyError jid) ∧
    (∀ (st' : JobStoreView) (root child : String) (rjob : AsyncJob) (n : Nat),
      st'.getJob root = some rjob →
      st'.childrenIds root = [child] →
      st'.getJob child = Option.none →
      get_status_view st' (n + 2) root = .error (.keyError child)) ∧
    (∀ (store : Flux.TaskStore) (rootId : Nat),
      Flux.get_task store rootId = Option.none →
      Flux.is_tree_done store rootId = false) := by
  refine ⟨?_, ?_, ?_⟩
  · cases fuel with
    | zero => exact absurd rfl hf
    | succ m =>
        unfold get_status_view build_view
        rw [hmiss]
  · intro st' root child rjob n hroot hch hchmiss
    unfold get_status_view build_view
    rw [hroot, hch]
    unfold build_children build_view
    rw [hchmiss]
  · intro store rootId hg
    unfold Flux.is_tree_done
    rw [hg]

/-- Witness for C10: an empty job store queried at any id. -/
theorem C10_get_status_view_missing_raises_witness :
    get_status_view ⟨fun _ => Option.none, fun _ => []⟩ 1 "x" =
      .error (.keyError "x") :=
  (C10_get_status_view_missing_raises ⟨fun _ => Option.none, fun _ => []⟩ "x" 1
    (by decide) rfl).1

end Agent
